import Mathlib

/-!
Verification development for the panda-rs-plugins repository.

Shallow embedding of the `panda-il-trace` plugin (Falcon IL branch
detector, trace assembler, call-stack renderer), the `panda-gdb` plugin
(RSP register read/write paths, monitor-command sublanguage), and the
theorems settling the frozen claims about them.

Machine integers (`u64`, `usize`) are modelled as `Nat`; the code never
relies on wraparound on the paths formalised here, except where noted
(`label as u32` is modelled with an explicit `% 2^32`).
-/

namespace PandaRS

/-! ## Falcon IL model (`falcon::il`)

The subset of the external lifter's IR that
`panda-il-trace/src/fil/bb.rs` inspects: scalars, expressions,
operations, instructions with optional guest addresses, blocks, and a
control-flow graph given as its block iteration order. -/

namespace Falcon

/-- A named register / temporary of a given bit width (`falcon::il::Scalar`). -/
structure Scalar where
  name : String
  bits : Nat
deriving DecidableEq, Repr

/-- Expression tree; `binop` stands for every non-leaf expression form,
which the detector only ever traverses through `scalars()`. -/
inductive Expression where
  | const (value : Nat) (bits : Nat)
  | scalar (s : Scalar)
  | binop (lhs rhs : Expression)
deriving DecidableEq, Repr

/-- In-order scalar leaves of an expression (`Expression::scalars`). -/
def Expression.scalars : Expression → List Scalar
  | .const _ _ => []
  | .scalar s => [s]
  | .binop l r => l.scalars ++ r.scalars

/-- Model of `Constant::value_u64`: the value, provided it fits in 64 bits. -/
def constValueU64 (value bits : Nat) : Option Nat :=
  if bits ≤ 64 then some value else none

/-- The IL operations the detector distinguishes
(`falcon::il::Operation`); `nop` stands for the remaining kinds. -/
inductive Operation where
  | assign (dst : Scalar) (src : Expression)
  | store (index src : Expression)
  | load (dst : Scalar) (index : Expression)
  | branch (target : Expression)
  | nop
deriving DecidableEq, Repr

/-- Model of `Operation::scalars_read`. -/
def Operation.scalarsRead : Operation → Option (List Scalar)
  | .assign _ src => some src.scalars
  | .store index src => some (index.scalars ++ src.scalars)
  | .load _ index => some index.scalars
  | .branch target => some target.scalars
  | .nop => some []

/-- An IL instruction: an operation plus the guest address it was lifted
from, when one is attached (`Instruction::address`). -/
structure Instruction where
  operation : Operation
  address : Option Nat
deriving DecidableEq, Repr

/-- Model of `Instruction::is_load`. -/
def Instruction.isLoad (i : Instruction) : Bool :=
  match i.operation with
  | .load _ _ => true
  | _ => false

/-- Model of `Instruction::is_store`. -/
def Instruction.isStore (i : Instruction) : Bool :=
  match i.operation with
  | .store _ _ => true
  | _ => false

/-- Model of `Instruction::scalars_read`. -/
def Instruction.scalarsRead (i : Instruction) : Option (List Scalar) :=
  i.operation.scalarsRead

/-- An IL basic block (`falcon::il::Block`), as its instruction list. -/
structure Block where
  instructions : List Instruction
deriving DecidableEq, Repr

/-- A lifted control-flow graph (`falcon::il::ControlFlowGraph`), as the
list of blocks in the order `cfg.blocks()` iterates them. -/
structure Cfg where
  blocks : List Block
deriving DecidableEq, Repr

/-- Model of `falcon::architecture::Amd64::new().stack_pointer()`. -/
def amd64StackPointer : Scalar := ⟨"rsp", 64⟩

/-- Model of `falcon::architecture::X86::new().stack_pointer()`. -/
def x86StackPointer : Scalar := ⟨"esp", 32⟩

end Falcon

/-! ## `panda-il-trace/src/fil`: branch model, basic block, detector -/

namespace Fil

/-- Branch kinds (`fil/branch.rs` plus the two sentinel kinds
`fil/bb.rs` and `fil/bbl.rs` construct and match). -/
inductive Branch where
  | DirectCall (site_pc dst_pc : Nat)
  | DirectJump (site_pc dst_pc : Nat) (taken : Bool)
  | IndirectCall (site_pc dst_pc : Nat) (reg_used : String)
  | IndirectJump (site_pc dst_pc : Nat) (reg_used : String)
  | CallSentinel (site_pc seq_num : Nat) (reg : String)
  | JumpSentinel (site_pc seq_num : Nat) (reg : String)
  | IndirectJumpSentinel (site_pc seq_num : Nat) (reg : String)
  | DirectJumpSentinel (site_pc seq_num : Nat)
  | ReturnSentinel (site_pc seq_num : Nat)
  | Return (site_pc dst_pc : Nat)
deriving DecidableEq, Repr

/-- Guest basic block (`fil/bb.rs::BasicBlock`).  The per-architecture
`translator` field of the Rust struct is the stateless lifter singleton;
the lifter itself is passed to `lift` as a function below. -/
structure BasicBlock where
  seq_num : Nat
  pc : Nat
  asid : Nat
  pid : Int
  ppid : Int
  branch : Option Branch
  bytes : List Nat
  translation : Option Falcon.Cfg
deriving DecidableEq, Repr

/-- Model of `BasicBlock::is_lifted`. -/
def BasicBlock.is_lifted (bb : BasicBlock) : Bool :=
  bb.translation.isSome

/-- Model of `BasicBlock::loads_reg`: the instruction reads `reg` and is a load. -/
def loads_reg (instr : Falcon.Instruction) (reg : Falcon.Scalar) : Bool :=
  match instr.scalarsRead with
  | some regs => regs.contains reg && instr.isLoad
  | none => false

/-- Model of `BasicBlock::stores_reg`: the instruction reads `reg` and is a store. -/
def stores_reg (instr : Falcon.Instruction) (reg : Falcon.Scalar) : Bool :=
  match instr.scalarsRead with
  | some regs => regs.contains reg && instr.isStore
  | none => false

/-- Placeholder instruction for out-of-range `getD` lookups; the source
only indexes inside the bounds established by the loop, so the default
is never consulted on reachable paths. -/
def dfltInstr : Falcon.Instruction := ⟨.nop, none⟩

/-- The `maybe_call` / `maybe_ret` computation inlined in
`BasicBlock::find_branch` (x86 / x86_64 path, `fil/bb.rs` lines
173-200): `maybe_call` iff the previous IR instruction stores the stack
pointer; `maybe_ret` only when `idx > 1`, `maybe_call` is false, and one
of the two preceding IR instructions loads the stack pointer. -/
def findBranchFlags (sp : Falcon.Scalar) (instrs : List Falcon.Instruction)
    (idx : Nat) : Bool × Bool :=
  if 0 < idx then
    let prev := instrs.getD (idx - 1) dfltInstr
    let maybeCall := stores_reg prev sp
    let maybeRet :=
      if 1 < idx && !maybeCall then
        loads_reg (instrs.getD (idx - 2) dfltInstr) sp || loads_reg prev sp
      else false
    (maybeCall, maybeRet)
  else (false, false)

/-- Rust `str::contains` (substring test), used for `reg.name().contains("temp")`. -/
def strContains (hay needle : String) : Bool :=
  hay.data.tails.any (fun t => needle.data.isPrefixOf t)

/-- Model of `BasicBlock::resolve_reg_indirect`: walk the block's instructions in
reverse looking for the most recent assignment or load whose destination
is `scalar`; the source expression's first scalar is the origin register. -/
def resolve_reg_indirect (instrs : List Falcon.Instruction)
    (scalar : Falcon.Scalar) : Option Falcon.Scalar :=
  instrs.reverse.findSome? fun instr =>
    match instr.operation with
    | .assign dst src => if dst = scalar then src.scalars.head? else none
    | .load dst index => if dst = scalar then index.scalars.head? else none
    | _ => none

/-- The classification `BasicBlock::find_branch` performs once it stands
on an IR `Branch` operation carrying a guest address (x86 / x86_64
build). -/
def classifyBranch (sp : Falcon.Scalar) (seqNum : Nat)
    (instrs : List Falcon.Instruction) (idx : Nat) (target : Falcon.Expression)
    (site_pc : Nat) : Option Branch :=
  let flags := findBranchFlags sp instrs idx
  match target with
  | .const value bits =>
    match Falcon.constValueU64 value bits with
    | some dst_pc =>
      match flags.1 with
      | true => some (.DirectCall site_pc dst_pc)
      | false => some (.DirectJump site_pc dst_pc false)
    | none => none
  | .scalar reg =>
    if flags.2 then
      some (.ReturnSentinel site_pc seqNum)
    else
      match strContains reg.name "temp" with
      | true =>
        match resolve_reg_indirect instrs reg with
        | some val =>
          match flags.1 with
          | true => some (.CallSentinel site_pc seqNum val.name)
          | false => some (.IndirectJumpSentinel site_pc seqNum val.name)
        | none => some (.DirectJumpSentinel site_pc seqNum)
      | false =>
        match flags.1 with
        | true => some (.CallSentinel site_pc seqNum reg.name)
        | false => some (.IndirectJumpSentinel site_pc seqNum reg.name)
  | _ => none

/-- Inner instruction loop of `find_branch` over one IL block:
`rem` is the tail still to visit, `idx` its offset in `instrs`.  A
`continue` in the source is the `none` fall-through here. -/
def findBranchInBlock (sp : Falcon.Scalar) (seqNum : Nat)
    (instrs : List Falcon.Instruction) :
    List Falcon.Instruction → Nat → Option Branch
  | [], _ => none
  | instr :: rem, idx =>
    match instr.operation, instr.address with
    | .branch target, some site_pc =>
      match classifyBranch sp seqNum instrs idx target site_pc with
      | some br => some br
      | none => findBranchInBlock sp seqNum instrs rem (idx + 1)
    | _, _ => findBranchInBlock sp seqNum instrs rem (idx + 1)

/-- Model of `BasicBlock::find_branch` (x86 / x86_64 build, stack pointer `sp`):
first call/jump/return found in the lifted CFG, if any. -/
def BasicBlock.find_branch (sp : Falcon.Scalar) (bb : BasicBlock) :
    Option Branch :=
  match bb.translation with
  | some cfg =>
    cfg.blocks.findSome? fun block =>
      findBranchInBlock sp bb.seq_num block.instructions block.instructions 0
  | none => none

/-! ### Lifting (`BasicBlock::lift` / `BasicBlock::process`)

The external lifter (`translator.translate_block` followed by
`blockify`) is a deterministic function of the bytes and the PC; it is
passed in as `translateBlock` / `blockify`.  `Tr` is the lifter's
intermediate `translation` value. -/

section Lift

variable {Tr : Type} (translateBlock : List Nat → Nat → Option Tr)
  (blockify : Tr → Option Falcon.Cfg) (sp : Falcon.Scalar)

/-- Model of `BasicBlock::lift`: attempt the lift only when no translation is
cached; only a success (translate and blockify both `Ok`) is stored. -/
def BasicBlock.lift (bb : BasicBlock) : BasicBlock :=
  if bb.translation.isNone then
    match translateBlock bb.bytes bb.pc with
    | some t =>
      match blockify t with
      | some cfg => { bb with translation := some cfg }
      | none => bb
    | none => bb
  else bb

/-- Model of `BasicBlock::process`: lift, then store the detected first branch. -/
def BasicBlock.process (bb : BasicBlock) : BasicBlock :=
  let lifted := bb.lift translateBlock blockify
  { lifted with branch := lifted.find_branch sp }

/-- State of a block after `n` successive `process()` calls. -/
def processIter (bb : BasicBlock) : Nat → BasicBlock
  | 0 => bb
  | n + 1 => (processIter bb n).process translateBlock blockify sp

/-- Model of `lift` invokes the external lifter exactly when no translation is
cached at entry; this counts the lifter invocations performed by the
first `n` `process()` calls. -/
def liftInvocations (bb : BasicBlock) : Nat → Nat
  | 0 => 0
  | n + 1 =>
    liftInvocations bb n +
      (if (processIter translateBlock blockify sp bb n).translation.isNone
       then 1 else 0)

end Lift

/-! ### Trace assembler (`fil/bbl.rs::BasicBlockList`) -/

/-- Final trace representation (`fil/bbl.rs::BasicBlockList`). -/
structure BasicBlockList where
  list : List BasicBlock
deriving DecidableEq, Repr

/-- The `BTreeMap` bin for one ASID: the input blocks of that ASID in
arrival order (binning by `list.into_iter().for_each` preserves the
input order within each bin). -/
def filterAsid (a : Nat) (l : List BasicBlock) : List BasicBlock :=
  l.filter (fun bb => bb.asid == a)

/-- Model of `bbv.sort_unstable_by_key(|bb| bb.seq_num())`: the source's unstable
sort is modelled by an insertion sort; the two can differ only in the
relative order of blocks sharing a `seq_num`. -/
def sortBlocks (l : List BasicBlock) : List BasicBlock :=
  l.insertionSort (fun x y => x.seq_num ≤ y.seq_num)

/-- The `BTreeMap` key set, iterated in increasing key order. -/
def asidKeys (l : List BasicBlock) : List Nat :=
  ((l.map BasicBlock.asid).dedup).insertionSort (fun a b => a ≤ b)

/-- One iteration of the resolution loop (`fil/bbl.rs` lines 44-99):
rewrite the block's branch given `actual_dst_pc`, the `pc` of the next
block executed in the same address space. -/
def resolveStep (bb : BasicBlock) (actual_dst_pc : Nat) : BasicBlock :=
  { bb with
    branch :=
      match bb.branch with
      | some (.CallSentinel site_pc _ reg) =>
        some (.IndirectCall site_pc actual_dst_pc reg)
      | some (.ReturnSentinel site_pc _) =>
        some (.Return site_pc actual_dst_pc)
      | some (.IndirectJumpSentinel site_pc _ reg) =>
        some (.IndirectJump site_pc actual_dst_pc reg)
      | some (.DirectJumpSentinel site_pc _) =>
        some (.DirectJump site_pc actual_dst_pc true)
      | some (.DirectJump site_pc dst_pc _) =>
        some (.DirectJump site_pc dst_pc (actual_dst_pc == dst_pc))
      | other => other }

/-- The resolution loop over one sorted ASID bin.  Each step reads only
the next block's `pc`, which no step mutates, so the imperative loop is
this one-pass recursion.  The block without a successor is untouched. -/
def resolveList : List BasicBlock → List BasicBlock
  | [] => []
  | [bb] => [bb]
  | bb :: next :: rest => resolveStep bb next.pc :: resolveList (next :: rest)

/-- Model of `BasicBlockList::from`: bin by ASID, sort each bin by `seq_num`,
resolve sentinels and `DirectJump` taken flags against the next block of
the bin, then concatenate the bins in increasing ASID order.  (The
source's final `assert_eq!` on the total count is the content of the
length-preservation theorem below.) -/
def BasicBlockList.fromList (l : List BasicBlock) : BasicBlockList :=
  ⟨((asidKeys l).map (fun a => resolveList (sortBlocks (filterAsid a l)))).flatten⟩

/-- Model of `BasicBlockList::trans_err_cnt`: blocks that are not lifted. -/
def BasicBlockList.trans_err_cnt (bbl : BasicBlockList) : Nat :=
  (bbl.list.filter (fun bb => !bb.is_lifted)).length

/-- Model of `BasicBlockList::len`. -/
def BasicBlockList.length (bbl : BasicBlockList) : Nat :=
  bbl.list.length

/-- The block list `BasicBlockList::to_branch_json` serializes: keep
only blocks whose branch is `Some`, then re-run the constructor (and
with it sentinel resolution) on the filtered list. -/
def BasicBlockList.toBranchJsonPayload (bbl : BasicBlockList) : BasicBlockList :=
  .fromList (bbl.list.filter (fun bb => bb.branch.isSome))

end Fil

/-! ## Rust numeric formatting helpers -/

namespace Fmt

/-- Lowercase hex digit. -/
def hexChar (d : Nat) : Char :=
  if d < 10 then Char.ofNat (48 + d) else Char.ofNat (87 + d)

/-- Sixteen hex digits of `n`, most significant first (fuel-driven). -/
def hexDigitsAux : Nat → Nat → List Char → List Char
  | 0, _, acc => acc
  | fuel + 1, n, acc => hexDigitsAux fuel (n / 16) (hexChar (n % 16) :: acc)

/-- Rust `format!("0x{:016x}", n)` for a `u64` value. -/
def hex016 (n : Nat) : String :=
  "0x" ++ String.mk (hexDigitsAux 16 n [])

/-- Minimal hex digits of `n`, most significant first (fuel-driven; 16
nibbles cover every `u64`). -/
def hexTrimAux : Nat → Nat → List Char → List Char
  | 0, _, acc => acc
  | fuel + 1, n, acc =>
    if n == 0 then acc else hexTrimAux fuel (n / 16) (hexChar (n % 16) :: acc)

/-- Rust `format!("{:#x?}", n)` for a `u64` value. -/
def altHex (n : Nat) : String :=
  if n == 0 then "0x0" else "0x" ++ String.mk (hexTrimAux 16 n [])

/-- Rust `format!("{:?}", b)` for a `bool`. -/
def boolDisplay (b : Bool) : String :=
  if b then "true" else "false"

/-- Rust `format!("{:?}", v)` for a `Vec<u32>`. -/
def labelsDisplay (l : List Nat) : String :=
  "[" ++ String.intercalate ", " (l.map toString) ++ "]"

end Fmt

/-! ## `panda-il-trace/src/il.rs` and the call-stack renderer

`callstack.rs::to_lisp` consumes the `il.rs` (pre-ASID) block model,
whose `Branch` has no `taken` flag on `DirectJump` and keeps sentinels
as `CallSentinel`/`JumpSentinel` with a `reg_or_ret` marker. -/

namespace Il

/-- Model of `il.rs::RET_MARKER`. -/
def RET_MARKER : String := "<RETURN>"

/-- Branch kinds of `il.rs`. -/
inductive Branch where
  | DirectCall (site_pc dst_pc : Nat)
  | DirectJump (site_pc dst_pc : Nat)
  | IndirectCall (site_pc dst_pc : Nat) (reg_used : String)
  | IndirectJump (site_pc dst_pc : Nat) (reg_used : String)
  | CallSentinel (site_pc seq_num : Nat) (reg_or_ret : String)
  | JumpSentinel (site_pc seq_num : Nat) (reg_or_ret : String)
  | Return (site_pc dst_pc : Nat)
deriving DecidableEq, Repr

/-- Guest basic block of `il.rs`. -/
structure BasicBlock where
  seq_num : Nat
  pc : Nat
  bytes : List Nat
  branch : Option Branch
  translation : Option Falcon.Cfg
deriving DecidableEq, Repr

/-- Final list representation of `il.rs`. -/
structure BasicBlockList where
  list : List BasicBlock
deriving DecidableEq, Repr

/-- Model of `fmt::Display for Branch` (`il.rs` lines 55-105). -/
def Branch.display : Branch → String
  | .DirectCall site_pc dst_pc =>
    "DirectCall@" ++ Fmt.hex016 site_pc ++ " -> " ++ Fmt.hex016 dst_pc
  | .DirectJump site_pc dst_pc =>
    "DirectJump@" ++ Fmt.hex016 site_pc ++ " -> " ++ Fmt.hex016 dst_pc
  | .IndirectCall site_pc dst_pc reg_used =>
    "IndirectCall@" ++ Fmt.hex016 site_pc ++ " -> " ++ Fmt.hex016 dst_pc ++
      " [" ++ reg_used ++ "]"
  | .IndirectJump site_pc dst_pc reg_used =>
    "IndirectJump@" ++ Fmt.hex016 site_pc ++ " -> " ++ Fmt.hex016 dst_pc ++
      " [" ++ reg_used ++ "]"
  | .CallSentinel site_pc seq_num reg_or_ret =>
    "CallSentinel@" ++ Fmt.hex016 site_pc ++ " [" ++ reg_or_ret ++ "], seq_num: " ++
      toString seq_num
  | .JumpSentinel site_pc seq_num reg_or_ret =>
    "JumpSentinel@" ++ Fmt.hex016 site_pc ++ " [" ++ reg_or_ret ++ "], seq_num: " ++
      toString seq_num
  | .Return site_pc dst_pc =>
    "Return@" ++ Fmt.hex016 site_pc ++ " -> " ++ Fmt.hex016 dst_pc

/-- Loop body and epilogue of `callstack.rs::to_lisp`: `acc` is
`lisp_str`, `st` the characters of `ret_stack` (a push appends at the
end, `String::pop` removes the last character, and the final while-loop
appends the popped characters, i.e. the stack reversed). -/
def toLispAux : List BasicBlock → Nat → String → List Char → String
  | [], _, acc, st => acc ++ String.mk st.reverse
  | bb :: rest, idx, acc, st =>
    match bb.branch with
    | some br =>
      match br with
      | .DirectCall _ _ | .IndirectCall _ _ _ =>
        if idx == 0 then
          toLispAux rest (idx + 1) (acc ++ br.display) st
        else
          toLispAux rest (idx + 1) (acc ++ "(" ++ br.display) (st ++ [')'])
      | .Return _ _ =>
        match st.getLast? with
        | some c => toLispAux rest (idx + 1) (acc.push c) st.dropLast
        | none => toLispAux rest (idx + 1) acc st
      | _ => toLispAux rest (idx + 1) acc st
    | none => toLispAux rest (idx + 1) acc st

/-- Model of `callstack.rs::to_lisp`: the call stack as a Lisp-like string. -/
def to_lisp (bbl : BasicBlockList) : String :=
  match bbl.list.isEmpty with
  | true => "()"
  | false => toLispAux bbl.list 0 "" []

end Il

/-! ## `panda-gdb`: RSP register paths (`src/panda_target.rs`)

`STATE` lives in `target_state.rs`, which is not among the sources;
modelled from the spec: the debug rendezvous holds a shared current PC
cell, read by `STATE.get_pc()` and written by `STATE.set_pc(..)`.  The
architecture-specific CPU-state structs (`CPUX86State` etc.) are
modelled with the fields `read_registers` / `write_registers` touch;
FPU/SSE/segment banks, which are passed through unchanged from the
struct, are represented by their pass-through value `other`. -/

namespace Gdb

/-- Modelled from the spec: the rendezvous' shared current-PC cell
(`target_state.rs` is absent from the sources). -/
structure SharedState where
  pc : Nat
deriving DecidableEq, Repr

/-- Model of `CPUX86State` as used by the x86_64 build: `regs`, the struct's own
`eip` field, `eflags`, `mxcsr`, and the pass-through banks. -/
structure Amd64Env where
  regs : List Nat
  eip : Nat
  eflags : Nat
  mxcsr : Nat
  other : Nat
deriving DecidableEq, Repr

/-- Model of `X86_64CoreRegs`. -/
structure Amd64Regs where
  regs : List Nat
  rip : Nat
  eflags : Nat
  mxcsr : Nat
  other : Nat
deriving DecidableEq, Repr

/-- Model of `read_registers`, x86_64 block: every field from the CPU struct
except the PC, which comes from the rendezvous (`STATE.get_pc()`). -/
def read_registers_x86_64 (st : SharedState) (env : Amd64Env) : Amd64Regs :=
  { regs := env.regs
    rip := st.pc
    eflags := env.eflags
    mxcsr := env.mxcsr
    other := env.other }

/-- Model of `write_registers`, x86_64 block: writes `regs`, the struct's `eip`
field (from `regs.rip`) and `mxcsr`; the rendezvous PC is not touched. -/
def write_registers_x86_64 (st : SharedState) (env : Amd64Env)
    (regs : Amd64Regs) : SharedState × Amd64Env :=
  (st, { env with regs := regs.regs, eip := regs.rip, mxcsr := regs.mxcsr })

/-- QEMU x86 register indices `R_EAX` … `R_EDI`. -/
def R_EAX : Nat := 0
def R_ECX : Nat := 1
def R_EDX : Nat := 2
def R_EBX : Nat := 3
def R_ESP : Nat := 4
def R_EBP : Nat := 5
def R_ESI : Nat := 6
def R_EDI : Nat := 7

/-- Model of `CPUX86State` as used by the i386 build. -/
structure X86Env where
  regs : List Nat
  eip : Nat
  eflags : Nat
  other : Nat
deriving DecidableEq, Repr

/-- Model of `X86CoreRegs`. -/
structure X86Regs where
  eax : Nat
  ebx : Nat
  ecx : Nat
  edx : Nat
  esp : Nat
  ebp : Nat
  esi : Nat
  edi : Nat
  eip : Nat
  eflags : Nat
  other : Nat
deriving DecidableEq, Repr

/-- Model of `read_registers`, i386 block. -/
def read_registers_i386 (st : SharedState) (env : X86Env) : X86Regs :=
  { eax := env.regs.getD R_EAX 0
    ebx := env.regs.getD R_EBX 0
    ecx := env.regs.getD R_ECX 0
    edx := env.regs.getD R_EDX 0
    esp := env.regs.getD R_ESP 0
    ebp := env.regs.getD R_EBP 0
    esi := env.regs.getD R_ESI 0
    edi := env.regs.getD R_EDI 0
    eip := st.pc
    eflags := env.eflags
    other := env.other }

/-- Model of `write_registers`, i386 block: general registers and `eflags` go to
the CPU struct, the PC goes to the rendezvous (`STATE.set_pc`); the
struct's `eip` field is not touched. -/
def write_registers_i386 (_st : SharedState) (env : X86Env)
    (regs : X86Regs) : SharedState × X86Env :=
  let newRegs :=
    ((((((((env.regs.set R_EAX regs.eax).set R_EBX regs.ebx).set
      R_ECX regs.ecx).set R_EDX regs.edx).set R_ESP regs.esp).set
      R_EBP regs.ebp).set R_ESI regs.esi).set R_EDI regs.edi)
  (⟨regs.eip⟩, { env with regs := newRegs, eflags := regs.eflags })

/-- Model of `CPUARMState` as used by the arm build: `regs[0..13]` is `rlow`,
`regs[13]`, `regs[14]`, `regs[15]` are the `sp` / `lr` / `pcreg`
fields. -/
structure ArmEnv where
  rlow : List Nat
  sp : Nat
  lr : Nat
  pcreg : Nat
  cpsr : Nat
deriving DecidableEq, Repr

/-- Model of `ArmCoreRegs`. -/
structure ArmRegs where
  r : List Nat
  sp : Nat
  lr : Nat
  pc : Nat
  cpsr : Nat
deriving DecidableEq, Repr

/-- Model of `read_registers`, arm block. -/
def read_registers_arm (st : SharedState) (env : ArmEnv) : ArmRegs :=
  { r := env.rlow, sp := env.sp, lr := env.lr, pc := st.pc, cpsr := env.cpsr }

/-- Model of `write_registers`, arm block: everything, including the PC, goes to
the CPU struct (`env.regs[15] = regs.pc`); the rendezvous is untouched. -/
def write_registers_arm (st : SharedState) (env : ArmEnv)
    (regs : ArmRegs) : SharedState × ArmEnv :=
  (st, { env with rlow := regs.r, sp := regs.sp, lr := regs.lr,
                  pcreg := regs.pc, cpsr := regs.cpsr })

/-- Model of `CPUMIPSState.active_tc` as used by the mips build. -/
structure MipsEnv where
  gpr : List Nat
  lo : Nat
  hi : Nat
  status : Nat
  badvaddr : Nat
  cause : Nat
deriving DecidableEq, Repr

/-- Model of `MipsCoreRegs`. -/
structure MipsRegs where
  r : List Nat
  lo : Nat
  hi : Nat
  pc : Nat
  status : Nat
  badvaddr : Nat
  cause : Nat
deriving DecidableEq, Repr

/-- Model of `read_registers`, mips block. -/
def read_registers_mips (st : SharedState) (env : MipsEnv) : MipsRegs :=
  { r := env.gpr, lo := env.lo, hi := env.hi, pc := st.pc,
    status := env.status, badvaddr := env.badvaddr, cause := env.cause }

/-- Model of `write_registers` has no mips block: nothing is written. -/
def write_registers_mips (st : SharedState) (env : MipsEnv)
    (_ : MipsRegs) : SharedState × MipsEnv :=
  (st, env)

/-- Model of `PowerPcCoreRegs`, carried through unchanged. -/
structure PpcRegs where
  other : Nat
deriving DecidableEq, Repr

/-- Model of `read_registers`, ppc block: empty — the caller-provided register
buffer is returned unmodified. -/
def read_registers_ppc (_ : SharedState) (regs : PpcRegs) : PpcRegs :=
  regs

end Gdb

/-! ## Monitor-command sublanguage (`panda-gdb/src/monitor_commands`)

The `peg`-generated parser is modelled as explicit ordered-choice
recursive descent with `rust-peg`'s error bookkeeping: failures record
an expected-token name at the failure offset; the reported error carries
the set of tokens recorded at the furthest offset reached; the public
entry point additionally demands that the whole input be consumed
(recording `EOF` otherwise).  Expected-token names are model-level
stand-ins for `rust-peg`'s stringified patterns.  `Reg` (the
architecture register enum, from the external `panda` crate) is
modelled as the canonical register name accepted by the
`regParse` parameter, and `LineCol::column` as offset + 1 (commands are
single-line). -/

namespace Monitor

/-- Parsed command (`parser.rs::Command`; `MemInfo` appears in
`handle_command`'s match but no grammar rule produces it). -/
inductive TaintTarget where
  | Address (addr : Nat)
  | Register (reg : String)
deriving DecidableEq, Repr

inductive Command where
  | Taint (target : TaintTarget) (label : Nat)
  | CheckTaint (target : TaintTarget)
  | GetTaint (target : TaintTarget)
  | MemInfo
  | Help
deriving DecidableEq, Repr

/-- Model of `rust-peg` failure bookkeeping: furthest failure offset and the
expected tokens recorded there. -/
structure PegErr where
  pos : Nat
  expected : List String
deriving DecidableEq, Repr

/-- Keep the furthest failure; at equal offsets accumulate the token
set (first-recorded order, duplicates dropped). -/
def PegErr.merge (a b : PegErr) : PegErr :=
  if a.pos < b.pos then b
  else if b.pos = a.pos then
    ⟨a.pos, a.expected ++ b.expected.filter (fun t => !(a.expected.contains t))⟩
  else a

/-- The no-failure element (neutral for `merge`). -/
def noErr : PegErr := ⟨0, []⟩

/-- Result of one rule: optional value and next offset, plus the
failures recorded while trying it. -/
def PRes (α : Type) : Type := Option (α × Nat) × PegErr

/-- Sequencing: run `f` from the position `r` reached, accumulating
recorded failures. -/
def pseq {α β : Type} (r : PRes α) (f : α → Nat → PRes β) : PRes β :=
  match r with
  | (none, e) => (none, e)
  | (some (a, p), e) =>
    let r2 := f a p
    (r2.1, e.merge r2.2)

/-- Ordered choice: try the second alternative only when the first
fails, accumulating recorded failures. -/
def palt {α : Type} (r1 : PRes α) (r2 : Unit → PRes α) : PRes α :=
  match r1 with
  | (some v, e) => (some v, e)
  | (none, e) =>
    let r := r2 ()
    (r.1, e.merge r.2)

/-- Map a rule's value. -/
def pmap {α β : Type} (f : α → β) (r : PRes α) : PRes β :=
  match r with
  | (some (a, p), e) => (some (f a, p), e)
  | (none, e) => (none, e)

/-- A literal such as `"taint"`: consume it or record it as expected. -/
def pLit (tok : String) (lit : List Char) (cs : List Char) (pos : Nat) :
    PRes Unit :=
  if lit.isPrefixOf (cs.drop pos) then (some ((), pos + lit.length), noErr)
  else (none, ⟨pos, [tok]⟩)

/-- The whitespace class of rule `_()`. -/
def isWsChar (c : Char) : Bool := c == ' ' || c == '\n' || c == '\t'

/-- Rule `_()`: one or more whitespace characters. -/
def pWs1 (cs : List Char) (pos : Nat) : PRes Unit :=
  let n := ((cs.drop pos).takeWhile isWsChar).length
  if n == 0 then (none, ⟨pos, ["whitespace"]⟩) else (some ((), pos + n), noErr)

/-- Hex digit class of rule `number()`. -/
def isHexDigitChar (c : Char) : Bool :=
  c.isDigit || ('a' ≤ c && c ≤ 'f') || ('A' ≤ c && c ≤ 'F')

/-- Numeric value of a hex digit. -/
def hexDigitVal (c : Char) : Nat :=
  if c.isDigit then c.toNat - 48
  else if 'a' ≤ c && c ≤ 'f' then c.toNat - 87
  else c.toNat - 55

/-- Rule `number()`: `"0x"` followed by hex digits (value must fit a
`u64`, else the `{?}` block reports `invalid hex number`), or decimal
digits (`invalid decimal number` on overflow), or the
`expected!("number")` fallback. -/
def pNumber (cs : List Char) (pos : Nat) : PRes Nat :=
  palt
    (pseq (pLit "\"0x\"" ['0', 'x'] cs pos) fun _ p2 =>
      let digits := (cs.drop p2).takeWhile isHexDigitChar
      if digits.length == 0 then (none, ⟨p2, ["hex-digit"]⟩)
      else
        let v := digits.foldl (fun acc c => acc * 16 + hexDigitVal c) 0
        if v < 2 ^ 64 then (some (v, p2 + digits.length), noErr)
        else (none, ⟨pos, ["invalid hex number"]⟩))
    (fun _ =>
      palt
        (let digits := (cs.drop pos).takeWhile Char.isDigit
         if digits.length == 0 then (none, ⟨pos, ["digit"]⟩)
         else
           let v := digits.foldl (fun acc c => acc * 10 + (c.toNat - 48)) 0
           if v < 2 ^ 64 then (some (v, pos + digits.length), noErr)
           else (none, ⟨pos, ["invalid decimal number"]⟩))
        (fun _ => (none, ⟨pos, ["number"]⟩)))

/-- Rule `register()`: an identifier `[a-zA-Z][a-zA-Z0-9]*` accepted by
`reg.parse()` (the `regParse` parameter), else the `{?}` block reports
`invalid register name`. -/
def pRegister (regParse : String → Option String) (cs : List Char)
    (pos : Nat) : PRes String :=
  match cs.drop pos with
  | [] => (none, ⟨pos, ["letter"]⟩)
  | c :: rest =>
    if c.isAlpha then
      let seg := c :: rest.takeWhile Char.isAlphanum
      match regParse (String.mk seg) with
      | some r => (some (r, pos + seg.length), noErr)
      | none => (none, ⟨pos, ["invalid register name"]⟩)
    else (none, ⟨pos, ["letter"]⟩)

/-- Rule `taint_target()`: `"*" number` or a register name. -/
def pTaintTarget (regParse : String → Option String) (cs : List Char)
    (pos : Nat) : PRes TaintTarget :=
  palt
    (pseq (pLit "\"*\"" ['*'] cs pos) fun _ p2 =>
      pmap TaintTarget.Address (pNumber cs p2))
    (fun _ => pmap TaintTarget.Register (pRegister regParse cs pos))

/-- Rule `taint()`: `"taint" _ taint_target() _ number()`; the label is
narrowed with `as u32`. -/
def pTaint (regParse : String → Option String) (cs : List Char)
    (pos : Nat) : PRes Command :=
  pseq (pLit "\"taint\"" ['t', 'a', 'i', 'n', 't'] cs pos) fun _ p1 =>
    pseq (pWs1 cs p1) fun _ p2 =>
      pseq (pTaintTarget regParse cs p2) fun target p3 =>
        pseq (pWs1 cs p3) fun _ p4 =>
          pmap (fun label => Command.Taint target (label % 2 ^ 32))
            (pNumber cs p4)

/-- Rule `check_taint()`: `"check_taint" _ taint_target()`. -/
def pCheckTaint (regParse : String → Option String) (cs : List Char)
    (pos : Nat) : PRes Command :=
  pseq
    (pLit "\"check_taint\""
      ['c', 'h', 'e', 'c', 'k', '_', 't', 'a', 'i', 'n', 't'] cs pos)
    fun _ p1 =>
      pseq (pWs1 cs p1) fun _ p2 =>
        pmap Command.CheckTaint (pTaintTarget regParse cs p2)

/-- Rule `get_taint()`: `"get_taint" _ taint_target()`. -/
def pGetTaint (regParse : String → Option String) (cs : List Char)
    (pos : Nat) : PRes Command :=
  pseq
    (pLit "\"get_taint\"" ['g', 'e', 't', '_', 't', 'a', 'i', 'n', 't'] cs pos)
    fun _ p1 =>
      pseq (pWs1 cs p1) fun _ p2 =>
        pmap Command.GetTaint (pTaintTarget regParse cs p2)

/-- Rule `help()`: `"help" _` — note the mandatory trailing whitespace. -/
def pHelp (cs : List Char) (pos : Nat) : PRes Command :=
  pseq (pLit "\"help\"" ['h', 'e', 'l', 'p'] cs pos) fun _ p1 =>
    pmap (fun _ => Command.Help) (pWs1 cs p1)

/-- Rule `command()`: ordered choice over the four command rules, with
the `expected!("command")` fallback. -/
def pCommand (regParse : String → Option String) (cs : List Char)
    (pos : Nat) : PRes Command :=
  palt (pTaint regParse cs pos) fun _ =>
    palt (pCheckTaint regParse cs pos) fun _ =>
      palt (pGetTaint regParse cs pos) fun _ =>
        palt (pHelp cs pos) fun _ =>
          (none, ⟨pos, ["command"]⟩)

/-- The reported parse error: 1-based column of the furthest failure
and the expected tokens recorded there
(`peg::error::ParseError<LineCol>` as `handle_command` consumes it). -/
structure ParseErr where
  column : Nat
  expected : List String
deriving DecidableEq, Repr

/-- Model of `Command::parse` = `monitor_commands::command(cmd)`: run rule
`command()` on the whole input; trailing unconsumed input records
`EOF`. -/
def commandParse (regParse : String → Option String) (s : String) :
    Except ParseErr Command :=
  let cs := s.data
  match pCommand regParse cs 0 with
  | (some (c, p), e) =>
    if p = cs.length then .ok c
    else
      let e2 := e.merge ⟨p, ["EOF"]⟩
      .error ⟨e2.pos + 1, e2.expected⟩
  | (none, e) => .error ⟨e.pos + 1, e.expected⟩

/-- Modelled from the spec: the external taint oracle
(`panda::taint::label_ram/label_reg/check_ram/check_reg/get_ram/get_reg`)
as label multisets per physical address / register. -/
structure TaintState where
  ram : List (Nat × Nat)
  reg : List (String × Nat)
deriving DecidableEq, Repr

def TaintState.checkRam (st : TaintState) (addr : Nat) : Bool :=
  st.ram.any (fun p => p.1 == addr)

def TaintState.getRam (st : TaintState) (addr : Nat) : List Nat :=
  (st.ram.filter (fun p => p.1 == addr)).map Prod.snd

def TaintState.checkReg (st : TaintState) (r : String) : Bool :=
  st.reg.any (fun p => p.1 == r)

def TaintState.getReg (st : TaintState) (r : String) : List Nat :=
  (st.reg.filter (fun p => p.1 == r)).map Prod.snd

/-- Model of `print_help_text` (each `outputln!` appends one `\n`-terminated
line). -/
def helpText : String :=
  "\nCommands:\n  meminfo - print out the current memory map\n" ++
  "  taint - apply taint to a given register/memory location\n" ++
  "  check_taint - check if a given register/memory location is tainted\n" ++
  "  get_taint - get the taint labels for a given register/memory location\n"

/-- The parse-error diagnostic block of `handle_command` (lines 60-81):
a blank line, `Error:`, the echoed command, a caret line indented three
spaces plus one space per column, and a closing blank line; a singleton
expected set is reported as `expected <tok>`, otherwise as
`expected one of the following: <toks>`. -/
def errorDiagnostic (cmd : String) (e : ParseErr) : String :=
  "\n" ++ "Error:\n" ++ "    " ++ cmd ++ "\n" ++
    (match e.expected with
     | [tok] =>
       "   " ++ String.mk (List.replicate e.column ' ') ++
         "^------ Invalid syntax, expected " ++ tok ++ "\n"
     | toks =>
       "   " ++ String.mk (List.replicate e.column ' ') ++
         "^------ Invalid syntax, expected one of the following: " ++
         String.intercalate ", " toks ++ "\n") ++
  "\n"

/-- Rust `str::trim`: strip leading and trailing whitespace. -/
def rustTrim (s : String) : String :=
  String.mk (((s.data.dropWhile Char.isWhitespace).reverse.dropWhile
    Char.isWhitespace).reverse)

/-- Model of `handle_command` (`monitor_commands/mod.rs`): trim, parse, execute.
`regParse` models `Reg::from_str`, `v2p` models
`panda::mem::virt_to_phys`, `memInfoText` the memory-map printout of
`crate::memory_map::print_to_gdb` (not among the sources).  Returns the
updated taint state and everything written to the output sink. -/
def handle_command (regParse : String → Option String) (v2p : Nat → Nat)
    (memInfoText : String) (st : TaintState) (cmdRaw : String) :
    TaintState × String :=
  let cmd := rustTrim cmdRaw
  match commandParse regParse cmd with
  | .ok (.Taint target label) =>
    match target with
    | .Address a =>
      let addr := v2p a
      ({ st with ram := (addr, label) :: st.ram },
        "Memory location " ++ Fmt.altHex addr ++ " tainted.\n")
    | .Register r =>
      ({ st with reg := (r, label) :: st.reg },
        "Register " ++ r ++ " tainted.\n")
  | .ok (.CheckTaint target) =>
    match target with
    | .Address a => (st, Fmt.boolDisplay (st.checkRam (v2p a)) ++ "\n")
    | .Register r => (st, Fmt.boolDisplay (st.checkReg r) ++ "\n")
  | .ok (.GetTaint target) =>
    match target with
    | .Address a =>
      let addr := v2p a
      if st.checkRam addr then (st, Fmt.labelsDisplay (st.getRam addr) ++ "\n")
      else (st, "[]\n")
    | .Register r =>
      if st.checkReg r then (st, Fmt.labelsDisplay (st.getReg r) ++ "\n")
      else (st, "[]\n")
  | .ok .MemInfo => (st, memInfoText)
  | .ok .Help => (st, helpText)
  | .error e => (st, errorDiagnostic cmd e)

end Monitor

/-! ## Claim C1: sentinel resolution across lift-failure gaps -/

/-- A block ending in a return whose destination was never observed:
the block with the immediately-succeeding sequence number is missing
from the trace (its lift failed), so the sentinel must survive. -/
def c1Block0 : Fil.BasicBlock := ⟨0, 0, 7, 1, 0, some (.ReturnSentinel 6 0), [], none⟩

/-- The next block the trace holds for ASID 7: sequence number 2, a gap
of one behind `c1Block0`. -/
def c1Block2 : Fil.BasicBlock := ⟨2, 4096, 7, 1, 0, none, [], none⟩

/-- C1: the claim requires a sentinel whose successor in its sorted ASID
partition does not carry the immediately-succeeding `seq_num` to stay
unresolved; the assembler instead resolves it to that unrelated block's
`pc` (the `TODO` at `fil/bbl.rs` line 46 marks exactly this missing
check): with blocks at `seq_num` 0 and 2, the `ReturnSentinel` of block
0 is rewritten to `Return` with `dst_pc = 4096`, the `pc` of the
`seq_num`-2 block. -/
theorem c1_gap_sentinel_is_resolved :
    c1Block2.seq_num ≠ c1Block0.seq_num + 1 ∧
    (Fil.BasicBlockList.fromList [c1Block0, c1Block2]).list.map
        Fil.BasicBlock.branch =
      [some (.Return 6 4096), none] := by
  decide

/-! ## Claim C2: PC routing in the RSP register paths -/

/-- C2 counterexample: on x86_64, `write_registers` stores the
client-supplied PC into the CPU-state struct's `eip` field and leaves
the rendezvous' shared PC untouched — the opposite of the claim.  With
shared PC 7, struct `eip` 1 and client `rip` 9, the claim instance
(shared PC receives 9 and the struct field keeps its value) is false. -/
theorem c2_x86_64_write_goes_to_struct :
    ¬((Gdb.write_registers_x86_64 ⟨7⟩ ⟨[], 1, 2, 3, 4⟩
          ⟨[], 9, 2, 3, 4⟩).1.pc = 9 ∧
      (Gdb.write_registers_x86_64 ⟨7⟩ ⟨[], 1, 2, 3, 4⟩
          ⟨[], 9, 2, 3, 4⟩).2.eip = 1) := by
  decide

/-- C2 as amended: `read_registers` reports the PC from the rendezvous'
shared PC field on every architecture that populates the bank (x86_64,
i386, arm, mips; the ppc block is empty and returns the buffer
unchanged), but `write_registers` routes the client PC to the shared
field only on i386 (leaving the struct's `eip` untouched); on x86_64 it
writes the struct's `eip`, on arm the struct's `regs[15]`, and on mips
it writes nothing — in those cases the rendezvous keeps its old PC. -/
theorem c2_pc_read_shared_write_struct_except_i386
    (st : Gdb.SharedState) (envA : Gdb.Amd64Env) (bankA : Gdb.Amd64Regs)
    (envI : Gdb.X86Env) (bankI : Gdb.X86Regs)
    (envR : Gdb.ArmEnv) (bankR : Gdb.ArmRegs)
    (envM : Gdb.MipsEnv) (bankM : Gdb.MipsRegs) (bankP : Gdb.PpcRegs) :
    (Gdb.read_registers_x86_64 st envA).rip = st.pc ∧
    (Gdb.read_registers_i386 st envI).eip = st.pc ∧
    (Gdb.read_registers_arm st envR).pc = st.pc ∧
    (Gdb.read_registers_mips st envM).pc = st.pc ∧
    Gdb.read_registers_ppc st bankP = bankP ∧
    (Gdb.write_registers_x86_64 st envA bankA).1 = st ∧
    (Gdb.write_registers_x86_64 st envA bankA).2.eip = bankA.rip ∧
    (Gdb.write_registers_arm st envR bankR).1 = st ∧
    (Gdb.write_registers_arm st envR bankR).2.pcreg = bankR.pc ∧
    (Gdb.write_registers_i386 st envI bankI).1.pc = bankI.eip ∧
    (Gdb.write_registers_i386 st envI bankI).2.eip = envI.eip ∧
    Gdb.write_registers_mips st envM bankM = (st, envM) :=
  ⟨rfl, rfl, rfl, rfl, rfl, rfl, rfl, rfl, rfl, rfl, rfl, rfl⟩

/-! ## Claim C6: what `trans_err_cnt` counts -/

/-- A block that lifted but in which the detector found no recognizable
terminator: kept with a `None` branch, yet lifted. -/
def c6Ambiguous : Fil.BasicBlock := ⟨0, 0, 7, 1, 0, none, [], some ⟨[]⟩⟩

/-- C6 counterexample: a lifted block with a `None` terminator is not
included in `trans_err_cnt` — the count is 0 while the list holds one
`None`-terminator block, so detector-ambiguity blocks are not counted
the way translation failures are. -/
theorem c6_ambiguity_not_counted :
    (Fil.BasicBlockList.fromList [c6Ambiguous]).trans_err_cnt = 0 ∧
    ((Fil.BasicBlockList.fromList [c6Ambiguous]).list.filter
        (fun bb => bb.branch.isNone)).length = 1 ∧
    ¬(((Fil.BasicBlockList.fromList [c6Ambiguous]).list.filter
        (fun bb => bb.branch.isNone)).length ≤
      (Fil.BasicBlockList.fromList [c6Ambiguous]).trans_err_cnt) := by
  decide

/-- C6 as amended: `trans_err_cnt` counts exactly the blocks whose lift
failed (`translation = None`); under the data-model invariant
`branch = Some ⇒ translation = Some` every counted block does carry a
`None` terminator, so the count is a lower bound on — but in general not
equal to — the number of `None`-terminator blocks, because lifted blocks
with no recognizable terminator are kept but not counted. -/
theorem c6_trans_err_cnt_counts_unlifted (l : List Fil.BasicBlock)
    (h : ∀ bb ∈ l, bb.branch.isSome = true → bb.translation.isSome = true) :
    (Fil.BasicBlockList.mk l).trans_err_cnt =
      (l.filter (fun bb => bb.translation.isNone)).length ∧
    (Fil.BasicBlockList.mk l).trans_err_cnt ≤
      (l.filter (fun bb => bb.branch.isNone)).length := by
  constructor
  · show (l.filter _).length = _
    congr 1
    apply List.filter_congr
    intro bb _
    cases hob : bb.translation <;> simp [Fil.BasicBlock.is_lifted, hob]
  · show (l.filter _).length ≤ _
    rw [← List.countP_eq_length_filter, ← List.countP_eq_length_filter]
    apply List.countP_mono_left
    intro bb hbb hlift
    have hbt := h bb hbb
    simp only [Fil.BasicBlock.is_lifted, Bool.not_eq_true'] at hlift
    cases hb : bb.branch with
    | none => simp
    | some br =>
      exact absurd (hbt (by simp [hb])) (by simp [hlift])

/-- C6 witness: the amended theorem applied to a singleton list holding
one unlifted block. -/
theorem c6_witness :
    (Fil.BasicBlockList.mk [⟨5, 1, 2, 1, 0, none, [], none⟩]).trans_err_cnt =
      ([(⟨5, 1, 2, 1, 0, none, [], none⟩ : Fil.BasicBlock)].filter
        (fun bb => bb.translation.isNone)).length ∧
    (Fil.BasicBlockList.mk [⟨5, 1, 2, 1, 0, none, [], none⟩]).trans_err_cnt ≤
      ([(⟨5, 1, 2, 1, 0, none, [], none⟩ : Fil.BasicBlock)].filter
        (fun bb => bb.branch.isNone)).length :=
  c6_trans_err_cnt_counts_unlifted _ (by decide)

/-! ## Claim C7: the monitor-command grammar and `help` -/

/-- A sample register table accepting only `rax` (the claim is about
parse failure, which is register-table independent here). -/
def c7RegParse : String → Option String :=
  fun s => if s == "rax" then some "rax" else none

/-- C7: the grammar's `help` rule demands at least one trailing
whitespace character while `handle_command` trims its input, so the
`help` command — advertised by the plugin's own help text — can never
parse: `Command::parse("help")` fails at column 5 expecting whitespace,
and `handle_command` (here on the grammar-conformant input `"help "`)
leaves the taint state untouched and emits only the column-pointed
diagnostic. -/
theorem c7_help_never_parses :
    Monitor.commandParse c7RegParse "help" =
      .error ⟨5, ["whitespace"]⟩ ∧
    Monitor.handle_command c7RegParse id "MEMMAP" ⟨[], []⟩ "help " =
      (⟨[], []⟩,
        "\nError:\n    help\n        ^------ Invalid syntax, expected whitespace\n\n") := by
  constructor
  · rfl
  · rfl

/-! ## Claim C3: at most one lift per block -/

/-- A lifter that always refuses the bytes. -/
def c3NoLift : List Nat → Nat → Option Unit := fun _ _ => none

/-- Blockify for the refusing lifter (never reached). -/
def c3NoBlockify : Unit → Option Falcon.Cfg := fun _ => none

/-- A freshly constructed (never lifted) block. -/
def c3Fresh : Fil.BasicBlock := ⟨0, 0, 7, 1, 0, none, [], none⟩

/-- C3 counterexample: `lift` caches only successes, so when the first
lift fails a second `process()` call invokes the lifter again — two
`process()` calls on a block whose bytes the lifter refuses perform two
lifter invocations, not at most one. -/
theorem c3_failed_lift_is_retried :
    ¬(Fil.liftInvocations c3NoLift c3NoBlockify Falcon.amd64StackPointer
        c3Fresh 2 ≤ 1) := by
  decide

/-- Model of `find_branch` reads only the translation and the sequence number,
never the stored branch. -/
theorem find_branch_ignores_branch (sp : Falcon.Scalar)
    (bb : Fil.BasicBlock) (br : Option Fil.Branch) :
    Fil.BasicBlock.find_branch sp { bb with branch := br } =
      Fil.BasicBlock.find_branch sp bb := by
  cases bb
  rfl

/-- Model of `lift` is the identity on an already-lifted block. -/
theorem lift_of_lifted {Tr : Type} (tb : List Nat → Nat → Option Tr)
    (bf : Tr → Option Falcon.Cfg) (bb : Fil.BasicBlock)
    (h : bb.translation.isSome = true) :
    Fil.BasicBlock.lift tb bf bb = bb := by
  unfold Fil.BasicBlock.lift
  simp [Option.isNone_iff_eq_none]
  intro hn
  rw [hn] at h
  simp at h

/-- Model of `process` keeps a present translation present. -/
theorem process_translation_isSome {Tr : Type}
    (tb : List Nat → Nat → Option Tr) (bf : Tr → Option Falcon.Cfg)
    (sp : Falcon.Scalar) (bb : Fil.BasicBlock)
    (h : bb.translation.isSome = true) :
    (Fil.BasicBlock.process tb bf sp bb).translation.isSome = true := by
  unfold Fil.BasicBlock.process
  rw [lift_of_lifted tb bf bb h]
  exact h

/-- On an already-processed, lifted block, `process` is the identity. -/
theorem process_process {Tr : Type} (tb : List Nat → Nat → Option Tr)
    (bf : Tr → Option Falcon.Cfg) (sp : Falcon.Scalar) (bb : Fil.BasicBlock)
    (h : (Fil.BasicBlock.process tb bf sp bb).translation.isSome = true) :
    Fil.BasicBlock.process tb bf sp (Fil.BasicBlock.process tb bf sp bb) =
      Fil.BasicBlock.process tb bf sp bb := by
  have h1 : Fil.BasicBlock.lift tb bf (Fil.BasicBlock.process tb bf sp bb) =
      Fil.BasicBlock.process tb bf sp bb := lift_of_lifted tb bf _ h
  show { Fil.BasicBlock.lift tb bf (Fil.BasicBlock.process tb bf sp bb) with
      branch := Fil.BasicBlock.find_branch sp
        (Fil.BasicBlock.lift tb bf (Fil.BasicBlock.process tb bf sp bb)) } =
    Fil.BasicBlock.process tb bf sp bb
  rw [h1]
  show { Fil.BasicBlock.lift tb bf bb with
      branch := Fil.BasicBlock.find_branch sp
        (Fil.BasicBlock.process tb bf sp bb) } =
    Fil.BasicBlock.process tb bf sp bb
  rw [show Fil.BasicBlock.find_branch sp (Fil.BasicBlock.process tb bf sp bb) =
      Fil.BasicBlock.find_branch sp (Fil.BasicBlock.lift tb bf bb) from
    find_branch_ignores_branch sp (Fil.BasicBlock.lift tb bf bb) _]
  rfl

/-- C3 as amended: once a `process()` call has produced a lifted block,
every further `process()` call is a no-op (translation and branch are
unchanged) and the lifter is never invoked again; the total number of
lifter invocations stays that of the first call.  (After a *failed*
lift, by contrast, each further `process()` call does invoke the lifter
again.) -/
theorem c3_lift_cached_after_success {Tr : Type}
    (tb : List Nat → Nat → Option Tr) (bf : Tr → Option Falcon.Cfg)
    (sp : Falcon.Scalar) (bb : Fil.BasicBlock) (n : Nat)
    (h : (Fil.processIter tb bf sp bb 1).translation.isSome = true) :
    Fil.processIter tb bf sp bb (n + 1) = Fil.processIter tb bf sp bb 1 ∧
    Fil.liftInvocations tb bf sp bb (n + 1) =
      Fil.liftInvocations tb bf sp bb 1 := by
  have hiter : ∀ m, Fil.processIter tb bf sp bb (m + 1) =
      Fil.processIter tb bf sp bb 1 := by
    intro m
    induction m with
    | zero => rfl
    | succ k ih =>
      show Fil.BasicBlock.process tb bf sp
          (Fil.processIter tb bf sp bb (k + 1)) = _
      rw [ih]
      exact process_process tb bf sp bb h
  refine ⟨hiter n, ?_⟩
  induction n with
  | zero => rfl
  | succ k ih =>
    show Fil.liftInvocations tb bf sp bb (k + 1) +
        (if (Fil.processIter tb bf sp bb (k + 1)).translation.isNone
         then 1 else 0) = _
    rw [ih, hiter k]
    have : (Fil.processIter tb bf sp bb 1).translation.isNone = false := by
      cases hx : (Fil.processIter tb bf sp bb 1).translation with
      | none => rw [hx] at h; simp at h
      | some _ => simp [hx]
    simp [this]

/-- A lifter that accepts everything. -/
def c3YesLift : List Nat → Nat → Option Unit := fun _ _ => some ()

/-- Blockify producing the empty CFG. -/
def c3YesBlockify : Unit → Option Falcon.Cfg := fun _ => some ⟨[]⟩

/-- C3 witness: with a succeeding lifter, four `process()` calls on a
fresh block equal one call and perform exactly one lifter invocation. -/
theorem c3_witness :
    Fil.processIter c3YesLift c3YesBlockify Falcon.amd64StackPointer
        c3Fresh 4 =
      Fil.processIter c3YesLift c3YesBlockify Falcon.amd64StackPointer
        c3Fresh 1 ∧
    Fil.liftInvocations c3YesLift c3YesBlockify Falcon.amd64StackPointer
        c3Fresh 4 =
      Fil.liftInvocations c3YesLift c3YesBlockify Falcon.amd64StackPointer
        c3Fresh 1 :=
  c3_lift_cached_after_success c3YesLift c3YesBlockify
    Falcon.amd64StackPointer c3Fresh 3 (by decide)

/-! ## Claim C4: x86 `maybe_call` / `maybe_ret` -/

/-- Modelled from the claim's wording (C4): `maybe_call` iff the
previous IR instruction stores the stack pointer; `maybe_ret` iff not a
call and at least one of the two preceding instructions loads the stack
pointer, *including* the case where only one preceding instruction
exists and it loads the stack pointer. -/
def c4ClaimFlags (sp : Falcon.Scalar) (instrs : List Falcon.Instruction)
    (idx : Nat) : Bool × Bool :=
  let call := decide (0 < idx) &&
    Fil.stores_reg (instrs.getD (idx - 1) Fil.dfltInstr) sp
  let ret := !call &&
    ((decide (1 < idx) &&
        Fil.loads_reg (instrs.getD (idx - 2) Fil.dfltInstr) sp) ||
      (decide (0 < idx) &&
        Fil.loads_reg (instrs.getD (idx - 1) Fil.dfltInstr) sp))
  (call, ret)

/-- A `pop`-style instruction: loads through the stack pointer. -/
def c4Pop : Falcon.Instruction :=
  ⟨.load ⟨"temp0", 64⟩ (.scalar ⟨"rsp", 64⟩), some 0⟩

/-- An indirect branch through `rax` right after the pop. -/
def c4Branch : Falcon.Instruction :=
  ⟨.branch (.scalar ⟨"rax", 64⟩), some 2⟩

/-- A block whose lifted CFG is just `[c4Pop, c4Branch]`. -/
def c4BB : Fil.BasicBlock :=
  ⟨0, 0, 7, 1, 0, none, [], some ⟨[⟨[c4Pop, c4Branch]⟩]⟩⟩

/-- C4 counterexample: when exactly one IR instruction precedes the
branch and it loads the stack pointer, the code leaves `maybe_ret`
false (the check is guarded by `idx > 1`), while the claim demands
`maybe_ret = true`; consequently `find_branch` classifies the block as
an `IndirectJumpSentinel` instead of a `ReturnSentinel`. -/
theorem c4_one_predecessor_ret_missed :
    Fil.findBranchFlags Falcon.amd64StackPointer [c4Pop, c4Branch] 1 =
      (false, false) ∧
    c4ClaimFlags Falcon.amd64StackPointer [c4Pop, c4Branch] 1 =
      (false, true) ∧
    Fil.findBranchFlags Falcon.amd64StackPointer [c4Pop, c4Branch] 1 ≠
      c4ClaimFlags Falcon.amd64StackPointer [c4Pop, c4Branch] 1 ∧
    Fil.BasicBlock.find_branch Falcon.amd64StackPointer c4BB =
      some (.IndirectJumpSentinel 2 0 "rax") := by
  decide

/-- C4 as amended: `maybe_call` iff an instruction precedes the branch
and the immediately-preceding one stores the stack pointer; `maybe_ret`
iff at least *two* instructions precede the branch, `maybe_call` is
false, and one of the two preceding instructions loads the stack
pointer (with a single preceding instruction `maybe_ret` stays false
even if it loads the stack pointer); the two flags are never both
true. -/
theorem c4_flags_characterisation (sp : Falcon.Scalar)
    (instrs : List Falcon.Instruction) (idx : Nat) :
    Fil.findBranchFlags sp instrs idx =
      (decide (0 < idx) &&
        Fil.stores_reg (instrs.getD (idx - 1) Fil.dfltInstr) sp,
       decide (1 < idx) &&
        !Fil.stores_reg (instrs.getD (idx - 1) Fil.dfltInstr) sp &&
        (Fil.loads_reg (instrs.getD (idx - 2) Fil.dfltInstr) sp ||
          Fil.loads_reg (instrs.getD (idx - 1) Fil.dfltInstr) sp)) ∧
    ((Fil.findBranchFlags sp instrs idx).1 &&
      (Fil.findBranchFlags sp instrs idx).2) = false := by
  unfold Fil.findBranchFlags
  cases idx with
  | zero => simp
  | succ k =>
    cases k with
    | zero =>
      simp
    | succ m =>
      cases hst : Fil.stores_reg (instrs[m + 1]?.getD Fil.dfltInstr) sp <;>
        simp [List.getD, hst]

/-! ## Shared lemmas about the trace assembler -/

/-- The resolution pass preserves the bin's length. -/
theorem resolveList_length (l : List Fil.BasicBlock) :
    (Fil.resolveList l).length = l.length := by
  induction l with
  | nil => rfl
  | cons bb rest ih =>
    cases rest with
    | nil => rfl
    | cons next rest2 =>
      show (Fil.resolveStep bb next.pc :: Fil.resolveList (next :: rest2)).length
        = (bb :: next :: rest2).length
      simpa using ih

/-- Sorting a bin is a permutation of it. -/
theorem sortBlocks_perm (l : List Fil.BasicBlock) :
    (Fil.sortBlocks l).Perm l :=
  List.perm_insertionSort _ l

/-- Sorting a bin preserves its length. -/
theorem sortBlocks_length (l : List Fil.BasicBlock) :
    (Fil.sortBlocks l).length = l.length :=
  (sortBlocks_perm l).length_eq

/-- The ASID key list has no duplicates. -/
theorem asidKeys_nodup (l : List Fil.BasicBlock) :
    (Fil.asidKeys l).Nodup :=
  ((List.perm_insertionSort _ _).nodup_iff).mpr
    (List.nodup_dedup (l.map Fil.BasicBlock.asid))

/-- One bin holds `count a` of the input's ASID tags. -/
theorem filterAsid_length (l : List Fil.BasicBlock) (a : Nat) :
    (Fil.filterAsid a l).length = List.count a (l.map Fil.BasicBlock.asid) := by
  rw [Fil.filterAsid, ← List.countP_eq_length_filter, List.count_eq_countP,
    List.countP_map]
  rfl

/-- The bins of the ASID partition exhaust the input. -/
theorem sum_filterAsid_length (l : List Fil.BasicBlock) :
    ((Fil.asidKeys l).map (fun a => (Fil.filterAsid a l).length)).sum =
      l.length := by
  have hperm :
      ((Fil.asidKeys l).map (fun a => (Fil.filterAsid a l).length)).Perm
        (((l.map Fil.BasicBlock.asid).dedup).map
          (fun a => (Fil.filterAsid a l).length)) :=
    (List.perm_insertionSort _ _).map _
  rw [hperm.sum_eq]
  simp only [filterAsid_length]
  rw [List.sum_map_count_dedup_eq_length, List.length_map]

/-- C8: the assembler's output holds exactly as many blocks as its
input — binning by ASID, sorting each bin, the in-place resolution pass
and the final concatenation all preserve the total block count, so the
closing `assert_eq!` in `BasicBlockList::from` never fires. -/
theorem c8_assembler_preserves_count (l : List Fil.BasicBlock) :
    (Fil.BasicBlockList.fromList l).list.length = l.length := by
  show (((Fil.asidKeys l).map
      (fun a => Fil.resolveList (Fil.sortBlocks (Fil.filterAsid a l)))).flatten).length
    = l.length
  rw [List.length_flatten, List.map_map]
  have hcomp : (List.length ∘
      fun a => Fil.resolveList (Fil.sortBlocks (Fil.filterAsid a l))) =
      fun a => (Fil.filterAsid a l).length := by
    funext a
    simp [Function.comp, resolveList_length, sortBlocks_length]
  rw [hcomp, sum_filterAsid_length]

/-! ## Claim C5: the `DirectJump` taken flag -/

/-- The relation claim C5 asserts between consecutive output blocks of
the same address space: if the earlier one ends in a `DirectJump`, its
`taken` flag is true exactly when the later one starts at the recorded
destination. -/
def c5Rel (a b : Fil.BasicBlock) : Prop :=
  a.asid = b.asid →
    ∀ s d t, a.branch = some (.DirectJump s d t) → (t = true ↔ b.pc = d)

/-- A resolution step changes only the branch. -/
theorem resolveStep_pc (bb : Fil.BasicBlock) (x : Nat) :
    (Fil.resolveStep bb x).pc = bb.pc := rfl

/-- A resolution step changes only the branch. -/
theorem resolveStep_asid (bb : Fil.BasicBlock) (x : Nat) :
    (Fil.resolveStep bb x).asid = bb.asid := rfl

/-- After resolving against the successor's `pc`, the pair satisfies
`c5Rel`: a surviving `DirectJump` got `taken := (next.pc == dst)`, and a
resolved `DirectJumpSentinel` became `DirectJump` aimed exactly at
`next.pc` with `taken := true`. -/
theorem c5Rel_resolveStep (bb : Fil.BasicBlock) (x : Nat)
    (y : Fil.BasicBlock) (h : y.pc = x) :
    c5Rel (Fil.resolveStep bb x) y := by
  intro _ s d t hbr
  cases hb : bb.branch with
  | none => simp [Fil.resolveStep, hb] at hbr
  | some br =>
    cases br <;> simp [Fil.resolveStep, hb] at hbr
    case DirectJump s0 d0 t0 =>
      obtain ⟨hs, hd, ht⟩ := hbr
      subst hd
      subst ht
      subst h
      simp [beq_iff_eq]
    case DirectJumpSentinel s0 q =>
      obtain ⟨hs, hd, ht⟩ := hbr
      subst hd
      subst ht
      subst h
      simp

/-- The resolved bin starts at the first input block's `pc`. -/
theorem resolveList_head_pc (next : Fil.BasicBlock)
    (rest : List Fil.BasicBlock) :
    ∃ y, (Fil.resolveList (next :: rest)).head? = some y ∧ y.pc = next.pc := by
  cases rest with
  | nil => exact ⟨next, rfl, rfl⟩
  | cons m r => exact ⟨Fil.resolveStep next m.pc, rfl, rfl⟩

/-- Adjacent blocks of a resolved bin satisfy `c5Rel`. -/
theorem chain'_resolveList (p : List Fil.BasicBlock) :
    List.Chain' c5Rel (Fil.resolveList p) := by
  induction p with
  | nil => simp [Fil.resolveList]
  | cons bb rest ih =>
    cases rest with
    | nil => simp [Fil.resolveList]
    | cons next rest2 =>
      show List.Chain' c5Rel
        (Fil.resolveStep bb next.pc :: Fil.resolveList (next :: rest2))
      rw [List.chain'_cons']
      refine ⟨?_, ih⟩
      intro y hy
      obtain ⟨y0, hh, hpc⟩ := resolveList_head_pc next rest2
      have hyy : y = y0 := by
        rw [Option.mem_def, hh] at hy
        exact (Option.some.inj hy).symm
      subst hyy
      exact c5Rel_resolveStep bb next.pc y hpc

/-- The resolution pass keeps every block in its address space. -/
theorem resolveList_asid (p : List Fil.BasicBlock) (a : Nat)
    (hall : ∀ x ∈ p, x.asid = a) : ∀ y ∈ Fil.resolveList p, y.asid = a := by
  induction p with
  | nil => intro y hy; simp [Fil.resolveList] at hy
  | cons bb rest ih =>
    cases rest with
    | nil =>
      intro y hy
      simp [Fil.resolveList] at hy
      subst hy
      exact hall _ (by simp)
    | cons next rest2 =>
      intro y hy
      have hy2 : y = Fil.resolveStep bb next.pc ∨
          y ∈ Fil.resolveList (next :: rest2) := by
        simpa [Fil.resolveList] using hy
      cases hy2 with
      | inl he =>
        subst he
        rw [resolveStep_asid]
        exact hall bb (by simp)
      | inr hm =>
        exact ih (fun x hx => hall x (List.mem_cons_of_mem bb hx)) y hm

/-- Concatenating per-ASID chunks with pairwise-distinct ASIDs
preserves any adjacency relation that holds vacuously across distinct
address spaces. -/
theorem chain'_flatten_asid_chunks (R : Fil.BasicBlock → Fil.BasicBlock → Prop)
    (hvac : ∀ x y, x.asid ≠ y.asid → R x y) :
    ∀ (keys : List Nat) (f : Nat → List Fil.BasicBlock),
      keys.Nodup → (∀ a ∈ keys, ∀ y ∈ f a, y.asid = a) →
      (∀ a ∈ keys, List.Chain' R (f a)) →
      List.Chain' R ((keys.map f).flatten) := by
  intro keys
  induction keys with
  | nil => intro f _ _ _; simp
  | cons a rest ih =>
    intro f hnd huni hch
    simp only [List.map_cons, List.flatten_cons]
    rw [List.chain'_append]
    refine ⟨hch a (by simp), ?_, ?_⟩
    · exact ih f (List.Nodup.of_cons hnd)
        (fun b hb => huni b (List.mem_cons_of_mem a hb))
        (fun b hb => hch b (List.mem_cons_of_mem a hb))
    · intro x hx y hy
      apply hvac
      have hxm : x ∈ f a := by
        obtain ⟨hne, he⟩ := List.mem_getLast?_eq_getLast hx
        rw [he]
        exact List.getLast_mem hne
      have hxa : x.asid = a := huni a (by simp) x hxm
      have hym : y ∈ (rest.map f).flatten := List.mem_of_mem_head? hy
      obtain ⟨c, hc, hyc⟩ := List.mem_flatten.mp hym
      obtain ⟨b, hb, rfl⟩ := List.mem_map.mp hc
      have hyb : y.asid = b := huni b (List.mem_cons_of_mem a hb) y hyc
      have hab : a ≠ b := by
        intro he
        subst he
        exact (List.nodup_cons.mp hnd).1 hb
      rw [hxa, hyb]
      exact hab

/-- Every resolved bin of `fromList` lives in its key's address space. -/
theorem fromList_chunk_asid (l : List Fil.BasicBlock) (a : Nat) :
    ∀ y ∈ Fil.resolveList (Fil.sortBlocks (Fil.filterAsid a l)), y.asid = a := by
  apply resolveList_asid
  intro x hx
  have hx2 : x ∈ Fil.filterAsid a l := (sortBlocks_perm _).mem_iff.mp hx
  have := (List.mem_filter.mp hx2).2
  simpa [beq_iff_eq] using this

/-- Branch classification never returns a taken `DirectJump`. -/
theorem classifyBranch_direct_jump_not_taken (sp : Falcon.Scalar)
    (seqNum : Nat) (instrs : List Falcon.Instruction) (idx : Nat)
    (target : Falcon.Expression) (site s d : Nat) (t : Bool)
    (h : Fil.classifyBranch sp seqNum instrs idx target site =
      some (.DirectJump s d t)) : t = false := by
  unfold Fil.classifyBranch at h
  cases target with
  | const value bits =>
    simp only [] at h
    cases hv : Falcon.constValueU64 value bits with
    | none => rw [hv] at h; simp at h
    | some dst =>
      rw [hv] at h
      cases hf : (Fil.findBranchFlags sp instrs idx).1 <;> rw [hf] at h <;>
        simp at h
      exact h.2.2
  | scalar reg =>
    simp only [] at h
    cases hf : (Fil.findBranchFlags sp instrs idx).2 <;> rw [hf] at h
    · cases hc : Fil.strContains reg.name "temp" <;> rw [hc] at h
      · cases hf1 : (Fil.findBranchFlags sp instrs idx).1 <;> rw [hf1] at h <;>
          simp at h
      · cases hr : Fil.resolve_reg_indirect instrs reg with
        | none => rw [hr] at h; simp at h
        | some val =>
          rw [hr] at h
          cases hf1 : (Fil.findBranchFlags sp instrs idx).1 <;> rw [hf1] at h <;>
            simp at h
    · simp at h
  | binop lhs rhs => simp at h

/-- The block-level scan never returns a taken `DirectJump`. -/
theorem findBranchInBlock_direct_jump_not_taken (sp : Falcon.Scalar)
    (seqNum : Nat) (instrs : List Falcon.Instruction) :
    ∀ (rem : List Falcon.Instruction) (idx : Nat) (s d : Nat) (t : Bool),
      Fil.findBranchInBlock sp seqNum instrs rem idx =
        some (.DirectJump s d t) → t = false := by
  intro rem
  induction rem with
  | nil => intro idx s d t h; simp [Fil.findBranchInBlock] at h
  | cons instr rest ih =>
    intro idx s d t h
    rw [Fil.findBranchInBlock] at h
    cases hop : instr.operation <;> simp only [hop] at h <;>
      try exact ih (idx + 1) s d t h
    case branch target =>
      cases haddr : instr.address with
      | none => simp only [haddr] at h; exact ih (idx + 1) s d t h
      | some site =>
        simp only [haddr] at h
        cases hc : Fil.classifyBranch sp seqNum instrs idx target site with
        | none => simp only [hc] at h; exact ih (idx + 1) s d t h
        | some br =>
          simp only [hc, Option.some.injEq] at h
          subst h
          exact classifyBranch_direct_jump_not_taken sp seqNum instrs idx
            target site s d t hc

/-- C5: (i) in the assembler's output, a `DirectJump` block followed by
a block of the same address space has `taken = true` exactly when that
successor's `pc` equals the recorded `dst_pc` (a resolved
`DirectJumpSentinel` becomes a `DirectJump` aimed at the successor with
`taken = true`, so the equivalence covers it too); (ii) the detector
itself only ever emits `DirectJump` with `taken = false`. -/
theorem c5_direct_jump_taken_iff (l : List Fil.BasicBlock)
    (sp : Falcon.Scalar) (bb : Fil.BasicBlock) (s d : Nat) (t : Bool)
    (h : bb.find_branch sp = some (.DirectJump s d t)) :
    List.Chain' c5Rel (Fil.BasicBlockList.fromList l).list ∧ t = false := by
  constructor
  · show List.Chain' c5Rel ((Fil.asidKeys l).map
      (fun a => Fil.resolveList (Fil.sortBlocks (Fil.filterAsid a l)))).flatten
    apply chain'_flatten_asid_chunks c5Rel
      (fun x y hne => fun he => absurd he hne)
      (Fil.asidKeys l) _ (asidKeys_nodup l)
    · intro a _
      exact fromList_chunk_asid l a
    · intro a _
      exact chain'_resolveList _
  · unfold Fil.BasicBlock.find_branch at h
    cases ht : bb.translation with
    | none => rw [ht] at h; simp at h
    | some cfg =>
      rw [ht] at h
      obtain ⟨block, _, hfb⟩ := List.exists_of_findSome?_eq_some h
      exact findBranchInBlock_direct_jump_not_taken sp bb.seq_num
        block.instructions block.instructions 0 s d t hfb

/-- A one-block CFG ending in `jmp 0x1337` (IL branch to a constant). -/
def c5DemoBB : Fil.BasicBlock :=
  ⟨0, 0, 7, 1, 0, none, [],
    some ⟨[⟨[⟨.branch (.const 4919 64), some 6⟩]⟩]⟩⟩

/-- A trace with an untaken `DirectJump` followed by its successor. -/
def c5DemoTrace : List Fil.BasicBlock :=
  [⟨0, 0, 7, 1, 0, some (.DirectJump 6 4919 false), [], none⟩,
   ⟨1, 64, 7, 1, 0, none, [], none⟩]

/-- C5 witness: the theorem applied to a two-block trace and to a
concrete detector run (`find_branch` yields `DirectJump` with
`taken = false` on `c5DemoBB`). -/
theorem c5_witness :
    List.Chain' c5Rel
      (Fil.BasicBlockList.fromList c5DemoTrace).list ∧
    false = false :=
  c5_direct_jump_taken_iff c5DemoTrace Falcon.amd64StackPointer
    c5DemoBB 6 4919 false (by decide)

/-! ## Claim C10: what `to_branch_json` writes -/

/-- A resolution step maps a present branch to a present branch. -/
theorem resolveStep_branch_isSome (bb : Fil.BasicBlock) (x : Nat)
    (h : bb.branch.isSome = true) :
    (Fil.resolveStep bb x).branch.isSome = true := by
  cases hb : bb.branch with
  | none => rw [hb] at h; simp at h
  | some br => cases br <;> simp [Fil.resolveStep, hb]

/-- The resolution pass keeps every branch present. -/
theorem resolveList_branch_isSome (p : List Fil.BasicBlock)
    (hall : ∀ x ∈ p, x.branch.isSome = true) :
    ∀ y ∈ Fil.resolveList p, y.branch.isSome = true := by
  induction p with
  | nil => intro y hy; simp [Fil.resolveList] at hy
  | cons bb rest ih =>
    cases rest with
    | nil =>
      intro y hy
      simp [Fil.resolveList] at hy
      subst hy
      exact hall _ (by simp)
    | cons next rest2 =>
      intro y hy
      have hy2 : y = Fil.resolveStep bb next.pc ∨
          y ∈ Fil.resolveList (next :: rest2) := by
        simpa [Fil.resolveList] using hy
      cases hy2 with
      | inl he =>
        subst he
        exact resolveStep_branch_isSome bb next.pc (hall bb (by simp))
      | inr hm =>
        exact ih (fun x hx => hall x (List.mem_cons_of_mem bb hx)) y hm

/-- A block whose indirect call was never resolved (sentinel). -/
def c10Sent : Fil.BasicBlock :=
  ⟨0, 0, 7, 1, 0, some (.CallSentinel 6 0 "rax"), [], none⟩

/-- The block the guest actually executed next — kept out of the JSON
because its terminator is `None`. -/
def c10Skipped : Fil.BasicBlock := ⟨1, 1280, 7, 1, 0, none, [], none⟩

/-- The next block with a terminator, two sequence numbers later. -/
def c10Next : Fil.BasicBlock :=
  ⟨2, 2304, 7, 1, 0, some (.DirectCall 9 9), [], none⟩

/-- C10: the list serialized by `to_branch_json` holds only blocks whose
branch is `Some` (the `None`-terminator blocks are filtered out and the
constructor's resolution pass maps present branches to present
branches); and because the constructor — and with it sentinel
resolution — is re-run on the *filtered* list, a sentinel resolves
against the next kept block of its ASID partition rather than the block
the guest actually executed next: filtering `c10Skipped` (pc 1280, the
true successor) makes the sentinel of `c10Sent` claim `c10Next`'s
pc 2304. -/
theorem c10_branch_json_only_some (bbl : Fil.BasicBlockList)
    (bb : Fil.BasicBlock) (h : bb ∈ bbl.toBranchJsonPayload.list) :
    bb.branch.isSome = true ∧
    (Fil.BasicBlockList.mk
        [c10Sent, c10Skipped, c10Next]).toBranchJsonPayload.list.map
      Fil.BasicBlock.branch =
      [some (.IndirectCall 6 2304 "rax"), some (.DirectCall 9 9)] := by
  refine ⟨?_, by decide⟩
  obtain ⟨c, hc, hbc⟩ := List.mem_flatten.mp h
  obtain ⟨a, _, rfl⟩ := List.mem_map.mp hc
  refine resolveList_branch_isSome _ ?_ bb hbc
  intro x hx
  have hx2 : x ∈ Fil.filterAsid a
      (bbl.list.filter (fun b => b.branch.isSome)) :=
    (sortBlocks_perm _).mem_iff.mp hx
  exact (List.mem_filter.mp (List.mem_filter.mp hx2).1).2

/-- C10 witness: the theorem applied to the demo list and its first
serialized block. -/
theorem c10_witness :
    (⟨0, 0, 7, 1, 0, some (.IndirectCall 6 2304 "rax"), [], none⟩ :
        Fil.BasicBlock).branch.isSome = true ∧
    (Fil.BasicBlockList.mk
        [c10Sent, c10Skipped, c10Next]).toBranchJsonPayload.list.map
      Fil.BasicBlock.branch =
      [some (.IndirectCall 6 2304 "rax"), some (.DirectCall 9 9)] :=
  c10_branch_json_only_some
    (Fil.BasicBlockList.mk [c10Sent, c10Skipped, c10Next]) _ (by decide)

/-! ## Claim C9: the call-stack renderer -/

/-- Modelled from claim C9 as amended: same traversal as `to_lisp`, but
with the parenthesis stack replaced by its depth — a call at index 0 is
emitted *without* opening a group; a call at any later index opens one;
a return closes one group when one is open and is ignored otherwise;
the groups still open at the end are closed. -/
def c9RenderAux : List Il.BasicBlock → Nat → String → Nat → String
  | [], _, acc, depth => acc ++ String.mk (List.replicate depth ')')
  | bb :: rest, idx, acc, depth =>
    match bb.branch with
    | some br =>
      match br with
      | .DirectCall _ _ | .IndirectCall _ _ _ =>
        if idx == 0 then c9RenderAux rest (idx + 1) (acc ++ br.display) depth
        else c9RenderAux rest (idx + 1) (acc ++ "(" ++ br.display) (depth + 1)
      | .Return _ _ =>
        match depth with
        | 0 => c9RenderAux rest (idx + 1) acc 0
        | n + 1 => c9RenderAux rest (idx + 1) (acc.push ')') n
      | _ => c9RenderAux rest (idx + 1) acc depth
    | none => c9RenderAux rest (idx + 1) acc depth

/-- Depth-counter form of `c9RenderAux` at the top level. -/
def c9Render (bbl : Il.BasicBlockList) : String :=
  if bbl.list.isEmpty then "()" else c9RenderAux bbl.list 0 "" 0

/-- The parenthesis stack of `to_lisp` always holds `)` only. -/
theorem replicate_paren_getLast (n : Nat) :
    (List.replicate (n + 1) ')').getLast? = some ')' := by
  rw [List.replicate_succ', List.getLast?_concat]

/-- Popping the stack drops one `)`. -/
theorem replicate_paren_dropLast (n : Nat) :
    (List.replicate (n + 1) ')').dropLast = List.replicate n ')' := by
  rw [List.replicate_succ', List.dropLast_concat]

/-- The loop of `to_lisp`, started with a stack of `n` closing
parentheses, renders exactly like the depth-counter form. -/
theorem toLispAux_eq_c9RenderAux (l : List Il.BasicBlock) :
    ∀ (idx : Nat) (acc : String) (n : Nat),
      Il.toLispAux l idx acc (List.replicate n ')') =
        c9RenderAux l idx acc n := by
  induction l with
  | nil =>
    intro idx acc n
    simp [Il.toLispAux, c9RenderAux, List.reverse_replicate]
  | cons bb rest ih =>
    intro idx acc n
    cases hb : bb.branch with
    | none => simp only [Il.toLispAux, c9RenderAux, hb]; exact ih _ _ _
    | some br =>
      cases br with
      | DirectCall s d =>
        simp only [Il.toLispAux, c9RenderAux, hb]
        cases hid : (idx == 0)
        · simp only [Bool.false_eq_true, if_false]
          rw [← List.replicate_succ']
          exact ih _ _ _
        · simp only [if_true]
          exact ih _ _ _
      | IndirectCall s d r =>
        simp only [Il.toLispAux, c9RenderAux, hb]
        cases hid : (idx == 0)
        · simp only [Bool.false_eq_true, if_false]
          rw [← List.replicate_succ']
          exact ih _ _ _
        · simp only [if_true]
          exact ih _ _ _
      | Return s d =>
        cases n with
        | zero =>
          simp only [Il.toLispAux, c9RenderAux, hb, List.replicate]
          exact ih _ _ 0
        | succ m =>
          simp only [Il.toLispAux, c9RenderAux, hb, replicate_paren_getLast,
            replicate_paren_dropLast]
          exact ih _ _ _
      | DirectJump s d =>
        simp only [Il.toLispAux, c9RenderAux, hb]; exact ih _ _ _
      | IndirectJump s d r =>
        simp only [Il.toLispAux, c9RenderAux, hb]; exact ih _ _ _
      | CallSentinel s q r =>
        simp only [Il.toLispAux, c9RenderAux, hb]; exact ih _ _ _
      | JumpSentinel s q r =>
        simp only [Il.toLispAux, c9RenderAux, hb]; exact ih _ _ _

/-- C9 as amended: `to_lisp` is the pure function of the block list
that renders an empty list as `()`, emits the call at index 0 without
opening a group, opens a group `(name` for every later
`DirectCall`/`IndirectCall`, has each `Return` close one open group
(and be ignored when none is open), ignores jumps and sentinels, and
closes all still-open groups at the end. -/
theorem c9_to_lisp_characterised (bbl : Il.BasicBlockList) :
    Il.to_lisp bbl = c9Render bbl := by
  unfold Il.to_lisp c9Render
  cases h : bbl.list.isEmpty with
  | true => simp [h]
  | false =>
    simp only [h, Bool.false_eq_true, if_false]
    exact toLispAux_eq_c9RenderAux bbl.list 0 "" 0

/-- A trace whose very first block ends in a direct call. -/
def c9Call : Il.BasicBlock := ⟨0, 0, [], some (.DirectCall 0 4919), none⟩

/-- C9 counterexample: the claim says *every* `DirectCall` opens a group
that is closed by the end of the trace, which would render the
single-call trace as `(DirectCall@… -> …)`; the code emits the call at
index 0 bare — no parenthesis is opened and none is closed. -/
theorem c9_first_call_opens_no_group :
    Il.to_lisp ⟨[c9Call]⟩ =
      "DirectCall@0x0000000000000000 -> 0x0000000000001337" ∧
    Il.to_lisp ⟨[c9Call]⟩ ≠
      "(DirectCall@0x0000000000000000 -> 0x0000000000001337)" := by
  decide

end PandaRS
